import Mathlib

/-
  Verification development for the ScanNet++ download orchestrator
  (src/download_scannetpp.py).

  The Python program is shallowly embedded: external effects (the network,
  the contents of files read from disk, the scene-layout naming scheme
  provided by the external `scene_release` module) are supplied by an
  explicit environment, while every decision taken by the program itself
  (retry classification, skip-vs-fetch, dedup of download options, the
  fail-fast scene loop) is translated line by line from the source.
  Filesystem and network effects are recorded in an explicit event trace.
-/

deriving instance DecidableEq for Except

namespace Scannetpp

/-- Executable model of Python `str.replace` (all non-overlapping
occurrences, left to right).  The fuel argument is the length of the
subject string, which bounds the recursion structurally. -/
def replaceGo (pat rep : List Char) : Nat → List Char → List Char
  | 0, s => s
  | _, [] => []
  | fuel + 1, c :: rest =>
    if pat ≠ [] ∧ pat.isPrefixOf (c :: rest) then
      rep ++ replaceGo pat rep fuel ((c :: rest).drop pat.length)
    else c :: replaceGo pat rep fuel rest

/-- Python `s.replace(pat, rep)` for a non-empty pattern. -/
def pyReplace (s pat rep : String) : String :=
  String.mk (replaceGo pat.data rep.data s.data.length s.data)

/-- A filesystem entry is either a regular file or a directory. -/
inductive FTag where
  | file
  | dir
deriving DecidableEq, Repr

/-- The local filesystem, as the set of existing paths with their kinds. -/
abbrev FS := List (String × FTag)

/-- Path `p` exists as a regular file (`Path.is_file()`). -/
abbrev isFile (fs : FS) (p : String) : Prop := (p, FTag.file) ∈ fs

/-- Path `p` exists as a directory (`Path.is_dir()`). -/
abbrev isDir (fs : FS) (p : String) : Prop := (p, FTag.dir) ∈ fs

/-- Path `p` exists at all (`Path.exists()`). -/
abbrev pathExists (fs : FS) (p : String) : Prop := isFile fs p ∨ isDir fs p

/-- Observable effects of one run: network requests and local filesystem
mutations, plus a ghost marker recording each `check_download_file`
invocation made from the per-scene asset loop (tagged with its scene and
asset, used to state which scenes were ever attempted). -/
inductive Ev where
  | netProbe (url : String)
  | netGet (url : String)
  | fsCreate (path : String)
  | fsDelete (path : String)
  | fsMkdir (path : String)
  | fsExtract (zipPath : String)
  | checkCall (sceneId : String) (asset : String)
deriving DecidableEq, Repr

/-- Python exceptions that the embedded code can raise or propagate. -/
inductive Err where
  | contentTooShort
  | httpError (code : Nat) (body : String)
  | urlError
  | assertionError (sceneId : String)
  | nameError
deriving DecidableEq, Repr

/-- Result of one `urlretrieve(url, filename)` call, as decided by the
remote host: full success, a truncated transfer (`ContentTooShortError`,
with a flag saying whether a partial file was left on disk), an
`HTTPError` with a status code, or a non-HTTP transport failure
(`URLError`), which `urlretrieve_multi_trials` does not catch. -/
inductive AttemptOutcome where
  | success
  | contentTooShort (leavesFile : Bool)
  | httpError (code : Nat) (body : String)
  | otherError
deriving DecidableEq, Repr

/-- Result of one HEAD probe (`urlopen` in `check_remote_file_exists`). -/
inductive ProbeOutcome where
  | ok
  | httpError (code : Nat) (body : String)
  | urlError
deriving DecidableEq, Repr

/-- Program state threaded through the embedding: the local filesystem,
a counter indexing successive network transfer attempts, and the event
trace accumulated so far. -/
structure St where
  fs : FS
  tick : Nat
  trace : List Ev
deriving DecidableEq, Repr

/-- External world: the outcome of the t-th transfer attempt, the outcome
of a HEAD probe per URL, the contents of each split file, the entries a
zip archive extracts to, and the path operations delegated to `pathlib`
and to the external `scene_release` naming scheme.

Modelled from the spec: `ScannetppScene_Release` (module `scene_release`,
not part of this repository's sources) is the AssetLocator collaborator,
"a pure lookup, no I/O", mapping a data root, scene id and asset name to
one path; it is therefore supplied here as the opaque function `layout`.
`withSuffixZip` and `parentOf` model `pathlib`'s `with_suffix(".zip")`
and `.parent`. -/
structure Env where
  net : Nat → AttemptOutcome
  probe : String → ProbeOutcome
  splitList : String → List String
  zipEntries : String → List (String × FTag)
  layout : String → String → String → String
  withSuffixZip : String → String
  parentOf : String → String

/-- Append one event to the trace. -/
def logEv (st : St) (ev : Ev) : St :=
  { st with trace := st.trace ++ [ev] }

/-- A file is written at `p` (by `urlretrieve`). -/
def fsCreateFile (st : St) (p : String) : St :=
  { st with fs := (p, FTag.file) :: st.fs, trace := st.trace ++ [Ev.fsCreate p] }

/-- Path `p` is removed (`os.remove` / `Path.unlink`). -/
def fsRemove (st : St) (p : String) : St :=
  { st with fs := st.fs.filter (fun e => e.1 != p), trace := st.trace ++ [Ev.fsDelete p] }

/-- Python `Path(p).mkdir(parents=True, exist_ok=True)`: creates the
directory when it is not already there. -/
def mkdirP (st : St) (p : String) : St :=
  if isDir st.fs p then st
  else { st with fs := (p, FTag.dir) :: st.fs, trace := st.trace ++ [Ev.fsMkdir p] }

/-- Python `zipfile.ZipFile(p).extractall(parent)`: the archive's entries
(as given by the environment) appear on disk. -/
def extractZip (env : Env) (st : St) (p : String) : St :=
  { st with fs := env.zipEntries p ++ st.fs, trace := st.trace ++ [Ev.fsExtract p] }

/-- Embedding of `check_remote_file_exists` (lines 47-60): a HEAD request
that succeeds yields `True`; an `HTTPError` is caught and yields `False`;
any other failure (`URLError`) is not caught and propagates. -/
def check_remote_file_exists : ProbeOutcome → Except Err Bool
  | ProbeOutcome.ok => Except.ok true
  | ProbeOutcome.httpError _ _ => Except.ok false
  | ProbeOutcome.urlError => Except.error Err.urlError

/-- Result of `urlretrieve_multi_trials`, with a ghost observation:
`preExists` records, for each attempt actually performed, whether
`filename` existed on disk when the attempt started. -/
structure TrialsOut where
  result : Except Err Bool
  st : St
  preExists : List Bool
deriving DecidableEq, Repr

/-- The `for i in range(max_trials)` loop of `urlretrieve_multi_trials`
(lines 76-119).  `i` is the Python loop index and `rem` the number of
iterations left (`max_trials - i`).  A successful transfer writes the file
and returns `True`; `ContentTooShortError` deletes any partial file and
retries unless this was the last trial, in which case it re-raises; any
`HTTPError` (401, 404, 406 or other) is re-raised at once; any other
transport error is not caught and propagates.  Falling off the loop end
is the source's `return False`. -/
def urlretrieve_trials_go (env : Env) (url filename : String) (max_trials : Nat) :
    Nat → Nat → St → TrialsOut
  | _, 0, st => ⟨Except.ok false, st, []⟩
  | i, rem + 1, st =>
    let pre := decide (pathExists st.fs filename)
    let st1 : St := { st with tick := st.tick + 1, trace := st.trace ++ [Ev.netGet url] }
    match env.net st.tick with
    | AttemptOutcome.success => ⟨Except.ok true, fsCreateFile st1 filename, [pre]⟩
    | AttemptOutcome.contentTooShort leavesFile =>
      let st2 := if leavesFile then fsCreateFile st1 filename else st1
      if i < max_trials - 1 then
        let st3 := if pathExists st2.fs filename then fsRemove st2 filename else st2
        let out := urlretrieve_trials_go env url filename max_trials (i + 1) rem st3
        ⟨out.result, out.st, pre :: out.preExists⟩
      else ⟨Except.error Err.contentTooShort, st2, [pre]⟩
    | AttemptOutcome.httpError code body => ⟨Except.error (Err.httpError code body), st1, [pre]⟩
    | AttemptOutcome.otherError => ⟨Except.error Err.urlError, st1, [pre]⟩

/-- Embedding of `urlretrieve_multi_trials` with the ghost
per-attempt observations kept. -/
def urlretrieve_multi_trialsFull (env : Env) (url filename : String) (max_trials : Nat)
    (st : St) : TrialsOut :=
  urlretrieve_trials_go env url filename max_trials 0 max_trials st

/-- Embedding of `urlretrieve_multi_trials` (lines 76-119). -/
def urlretrieve_multi_trials (env : Env) (url filename : String) (max_trials : Nat)
    (st : St) : Except Err Bool × St :=
  let out := urlretrieve_multi_trialsFull env url filename max_trials st
  (out.result, out.st)

/-- Embedding of `download_file` (lines 122-132): optionally create the
parent directory, then fetch with the default of five trials. -/
def download_file (env : Env) (url filename : String) (make_parent : Bool)
    (st : St) : Except Err Bool × St :=
  let st1 := if make_parent then mkdirP st (env.parentOf filename) else st
  urlretrieve_multi_trials env url filename 5 st1

/-- URL construction of `check_download_file` (lines 143-144): normalize
backslashes in the remote path, then substitute the token and the path
into the template. -/
def buildUrl (cfg_token : String) (url_template remote_path : String) : String :=
  pyReplace (pyReplace url_template "TOKEN" cfg_token) "FILEPATH"
    (pyReplace remote_path "\\" "/")

/-- Embedding of `check_download_file` (lines 135-159): in dry-run mode,
only the HEAD probe is issued and its boolean returned; otherwise an
existing local file short-circuits to `True`, else the file is downloaded
(with parent creation). -/
def check_download_file (env : Env) (token : String) (verbose : Bool)
    (url_template remote_path local_path : String) (dry_run : Bool)
    (st : St) : Except Err Bool × St :=
  let url := buildUrl token url_template remote_path
  if dry_run then
    let st1 := logEv st (Ev.netProbe url)
    match check_remote_file_exists (env.probe url) with
    | Except.ok b => (Except.ok b, st1)
    | Except.error e => (Except.error e, st1)
  else
    if isFile st.fs local_path then (Except.ok true, st)
    else download_file env url local_path true st

/-- The configuration object (YAML plus environment overrides), as read by
`main` after the interactive prompting that is out of the modelled core.
Optional fields model Python `cfg.get(...)`; functions model the
dictionary-valued fields (`option_assets`, `exclude_assets` with its
`.get(split, [])` default). -/
structure Cfg where
  token : String
  root_url : String
  data_root : String
  dry_run : Bool
  verbose : Bool
  meta_files : List String
  metadata_only : Bool
  splits : List String
  download_scenes : Option (List String)
  download_splits : Option (List String)
  scene_limit : Option Nat
  scannetpp_gs_dir : Option String
  scannetpp_gs_url : String
  download_assets : Option (List String)
  download_options : Option (List String)
  option_assets : String → List String
  default_assets : List String
  exclude_assets : String → List String
  zipped_assets : List String

/-- Python truthiness of `cfg.get(...)` for a list field: absent and `[]`
are both falsy. -/
def truthyL : Option (List String) → Bool
  | none => false
  | some l => !l.isEmpty

/-- Python truthiness of `cfg.get(...)` for a string field. -/
def truthyS : Option String → Bool
  | none => false
  | some s => !(s == "")

/-- Python truthiness of `cfg.get(...)` for a numeric field: absent and
`0` are both falsy. -/
def truthyN : Option Nat → Bool
  | none => false
  | some n => !(n == 0)

/-- Python `a / b` on `pathlib` paths. -/
def pathJoin (a b : String) : String := a ++ "/" ++ b

/-- The inner loop of the download-options expansion (lines 255-257):
append each asset of one option unless it was already collected. -/
def addAssets : List String → List String → List String
  | acc, [] => acc
  | acc, a :: rest => if a ∈ acc then addAssets acc rest else addAssets (acc ++ [a]) rest

/-- The outer loop of the download-options expansion (lines 253-257). -/
def collectAssets (optionAssets : String → List String) :
    List String → List String → List String
  | acc, [] => acc
  | acc, opt :: rest => collectAssets optionAssets (addAssets acc (optionAssets opt)) rest

/-- Selection of the asset list (lines 249-259): an explicit
`download_assets` list, else the deduplicated expansion of
`download_options`, else `default_assets`. -/
def assetsOf (cfg : Cfg) : List String :=
  if truthyL cfg.download_assets then cfg.download_assets.getD []
  else if truthyL cfg.download_options then
    collectAssets cfg.option_assets [] (cfg.download_options.getD [])
  else cfg.default_assets

/-- Selection of the scene list (lines 230-240): an explicit scene list,
else the concatenation of the requested splits' scene lists, else the
variable is never assigned (a `NameError` at its first use, modelled as
`none`); finally the optional `scene_limit` truncation. -/
def scenesOf (env : Env) (cfg : Cfg) : Option (List String) :=
  let base :=
    if truthyL cfg.download_scenes then some (cfg.download_scenes.getD [])
    else if truthyL cfg.download_splits then
      some ((cfg.download_splits.getD []).foldl (fun acc split => acc ++ env.splitList split) [])
    else none
  match base with
  | none => none
  | some ids =>
    some (if truthyN cfg.scene_limit then ids.take (cfg.scene_limit.getD 0) else ids)

/-- The split-membership lookup of lines 273-277.  It mirrors the Python
loop `split = None; for split in cfg.splits: if scene_id in
split_lists[split]: break` including the loop-variable leak: when the
iteration finishes without a match, the variable holds the LAST split
name rather than `None`, so `none` is returned only when `splits` is
empty. -/
def findSplitVar : List String → (String → Bool) → Option String
  | [], _ => none
  | [s], _ => some s
  | s :: s2 :: rest, inSplit =>
    if inSplit s then some s else findSplitVar (s2 :: rest) inSplit

/-- The meta-file loop (lines 215-217): fetch each meta file under the
data root; a `False` result appends the local path to `missing` and the
loop continues; a raised error propagates. -/
def metaLoop (env : Env) (cfg : Cfg) : List String → St → List String →
    Except Err (List String) × St
  | [], st, missing => (Except.ok missing, st)
  | path :: rest, st, missing =>
    match check_download_file env cfg.token cfg.verbose cfg.root_url path
        (pathJoin cfg.data_root path) cfg.dry_run st with
    | (Except.error e, st1) => (Except.error e, st1)
    | (Except.ok true, st1) => metaLoop env cfg rest st1 missing
    | (Except.ok false, st1) =>
      metaLoop env cfg rest st1 (missing ++ [pathJoin cfg.data_root path])

/-- The loop of `download_scannetpp_gs` (lines 63-73): fetch each scene's
point cloud, stopping at the first `False` result. -/
def gsLoop (env : Env) (cfg : Cfg) (gs_dir : String) : List String → St →
    Except Err Unit × St
  | [], st => (Except.ok (), st)
  | scene_id :: rest, st =>
    let src_path :=
      pathJoin (pathJoin (pathJoin "scannetpp_gs" scene_id) "ckpts") "point_cloud_30000.ply"
    let tgt_path := pathJoin gs_dir (scene_id ++ "/point_cloud_30000.ply")
    match check_download_file env cfg.token cfg.verbose cfg.scannetpp_gs_url src_path
        tgt_path cfg.dry_run st with
    | (Except.error e, st1) => (Except.error e, st1)
    | (Except.ok false, st1) => (Except.ok (), st1)
    | (Except.ok true, st1) => gsLoop env cfg gs_dir rest st1

/-- The per-scene asset loop (lines 279-319).  Excluded assets are
skipped.  A zipped asset whose extracted target already exists (file or
directory) is skipped without touching the archive; otherwise the archive
is fetched to the `.zip` path and, outside dry-run, extracted and the zip
deleted.  A plain asset goes through `check_download_file` directly.  A
`False` result records the path as missing and aborts the loop with the
scene-level error flag set; a raised error propagates.  The returned
boolean is `download_has_error`. -/
def assetLoop (env : Env) (cfg : Cfg) (scene_id split : String) :
    List String → St → List String → Except Err (List String × Bool) × St
  | [], st, missing => (Except.ok (missing, false), st)
  | asset :: rest, st, missing =>
    if asset ∈ cfg.exclude_assets split then assetLoop env cfg scene_id split rest st missing
    else if asset ∈ cfg.zipped_assets then
      let tgt_path := env.layout (pathJoin cfg.data_root "data") scene_id asset
      if isFile st.fs tgt_path ∨ isDir st.fs tgt_path then
        assetLoop env cfg scene_id split rest st missing
      else
        let src_download_path := env.withSuffixZip (env.layout "data" scene_id asset)
        let tgt_download_path := env.withSuffixZip tgt_path
        let st0 := logEv st (Ev.checkCall scene_id asset)
        match check_download_file env cfg.token cfg.verbose cfg.root_url src_download_path
            tgt_download_path cfg.dry_run st0 with
        | (Except.error e, st1) => (Except.error e, st1)
        | (Except.ok false, st1) => (Except.ok (missing ++ [tgt_download_path], true), st1)
        | (Except.ok true, st1) =>
          if !cfg.dry_run then
            let st2 := extractZip env st1 tgt_download_path
            let st3 := fsRemove st2 tgt_download_path
            assetLoop env cfg scene_id split rest st3 missing
          else assetLoop env cfg scene_id split rest st1 missing
    else
      let src_path := env.layout "data" scene_id asset
      let tgt_path := env.layout (pathJoin cfg.data_root "data") scene_id asset
      let st0 := logEv st (Ev.checkCall scene_id asset)
      match check_download_file env cfg.token cfg.verbose cfg.root_url src_path tgt_path
          cfg.dry_run st0 with
      | (Except.error e, st1) => (Except.error e, st1)
      | (Except.ok false, st1) => (Except.ok (missing ++ [tgt_path], true), st1)
      | (Except.ok true, st1) => assetLoop env cfg scene_id split rest st1 missing

/-- One iteration of the scene loop body (lines 265-319): the split
lookup with its `assert`, then the asset loop. -/
def processScene (env : Env) (cfg : Cfg) (download_assets : List String) (scene_id : String)
    (st : St) (missing : List String) : Except Err (List String × Bool) × St :=
  match findSplitVar cfg.splits (fun split => decide (scene_id ∈ env.splitList split)) with
  | none => (Except.error (Err.assertionError scene_id), st)
  | some split => assetLoop env cfg scene_id split download_assets st missing

/-- The scene loop (lines 264-323): scenes are processed in order; as
soon as one scene reports `download_has_error`, the loop breaks (the
fail-fast policy); a raised error propagates. -/
def sceneLoop (env : Env) (cfg : Cfg) (download_assets : List String) :
    List String → St → List String → Except Err (List String) × St
  | [], st, missing => (Except.ok missing, st)
  | scene_id :: rest, st, missing =>
    match processScene env cfg download_assets scene_id st missing with
    | (Except.error e, st1) => (Except.error e, st1)
    | (Except.ok (missing1, true), st1) => (Except.ok missing1, st1)
    | (Except.ok (missing1, false), st1) => sceneLoop env cfg download_assets rest st1 missing1

/-- Embedding of the effectful part of `main` (lines 204-328), after
configuration resolution and interactive prompting: create the data
root, fetch the meta files, stop there under `metadata_only`, select
scenes, divert to the ScanNet++GS downloader when configured, otherwise
select assets and run the fail-fast scene loop.  The returned value is
the `missing` list at the point `main` returns. -/
def run (env : Env) (cfg : Cfg) (fs0 : FS) : Except Err (List String) × St :=
  let st0 : St := ⟨fs0, 0, []⟩
  let st1 := mkdirP st0 cfg.data_root
  match metaLoop env cfg cfg.meta_files st1 [] with
  | (Except.error e, st2) => (Except.error e, st2)
  | (Except.ok missing, st2) =>
    if cfg.metadata_only then (Except.ok missing, st2)
    else
      match scenesOf env cfg with
      | none => (Except.error Err.nameError, st2)
      | some scene_ids =>
        if truthyS cfg.scannetpp_gs_dir then
          match gsLoop env cfg (cfg.scannetpp_gs_dir.getD "") scene_ids st2 with
          | (Except.error e, st3) => (Except.error e, st3)
          | (Except.ok _, st3) => (Except.ok missing, st3)
        else
          sceneLoop env cfg (assetsOf cfg) scene_ids st2 missing

/-- Modelled from the spec: the asset list that download options should
produce, "the concatenation of the selected options' asset lists in
selection order with every duplicate after the first occurrence removed"
(first-occurrence order).  Stated independently of the source code, to be
compared with `collectAssets`. -/
def dedupFirst : List String → List String
  | [] => []
  | x :: xs => x :: dedupFirst (xs.filter (fun y => decide (y ≠ x)))
termination_by l => l.length
decreasing_by
  simp only [List.length_cons]
  exact Nat.lt_succ_of_le (List.length_filter_le _ _)

/-- Network events: the HEAD probe and each transfer attempt. -/
def Ev.isNet : Ev → Bool
  | Ev.netProbe _ => true
  | Ev.netGet _ => true
  | _ => false

/-- Local filesystem mutations: file creation, deletion, directory
creation, archive extraction. -/
def Ev.isMut : Ev → Bool
  | Ev.fsCreate _ => true
  | Ev.fsDelete _ => true
  | Ev.fsMkdir _ => true
  | Ev.fsExtract _ => true
  | _ => false

/-- The scene a ghost `checkCall` marker belongs to, if any. -/
def Ev.sceneTag : Ev → Option String
  | Ev.checkCall s _ => some s
  | _ => none

/-- Whether a HEAD probe outcome is an HTTP error status (the case
`check_remote_file_exists` reports as `False`). -/
def isHttpErr : ProbeOutcome → Bool
  | ProbeOutcome.httpError _ _ => true
  | _ => false

/-- Every event in `st2`'s trace was already in `st`'s trace, or
satisfies `P`: the events added between the two states satisfy `P`. -/
def NewEvs (st st2 : St) (P : Ev → Prop) : Prop :=
  ∀ ev, ev ∈ st2.trace → ev ∈ st.trace ∨ P ev

/-- The trace of `st2` extends the trace of `st` by some suffix. -/
def TraceMono (st st2 : St) : Prop :=
  ∃ delta, st2.trace = st.trace ++ delta

/-- Concrete environment for evaluated instances: every transfer
succeeds, the HEAD probe fails with 404 exactly on the URL
`data/B/x`, every split file lists the scenes `A`, `B`, `C`, and the
naming scheme is plain path concatenation. -/
def envW : Env where
  net := fun _ => AttemptOutcome.success
  probe := fun u => if u = "data/B/x" then ProbeOutcome.httpError 404 "" else ProbeOutcome.ok
  splitList := fun _ => ["A", "B", "C"]
  zipEntries := fun _ => []
  layout := fun root s a => root ++ "/" ++ s ++ "/" ++ a
  withSuffixZip := fun p => p ++ ".zip"
  parentOf := fun _ => "parent"

/-- Concrete dry-run configuration for evaluated instances.  The URL
template is just `FILEPATH`, so a built URL equals the remote path. -/
def cfgW : Cfg where
  token := "tk"
  root_url := "FILEPATH"
  data_root := "root"
  dry_run := true
  verbose := false
  meta_files := ["m1", "m2"]
  metadata_only := false
  splits := ["tr"]
  download_scenes := some ["A", "B", "C"]
  download_splits := none
  scene_limit := none
  scannetpp_gs_dir := none
  scannetpp_gs_url := "gs"
  download_assets := some ["x"]
  download_options := none
  option_assets := fun o => if o = "opt1" then ["x", "y"] else if o = "opt2" then ["y", "z"] else []
  default_assets := []
  exclude_assets := fun _ => []
  zipped_assets := []

/-- State after processing scene `A` from the empty start state under
`envW`/`cfgW`. -/
def stW1 : St := ⟨[], 0, [Ev.checkCall "A" "x", Ev.netProbe "data/A/x"]⟩

/-- State after additionally processing scene `B` (whose probe fails). -/
def stW2 : St :=
  ⟨[], 0, [Ev.checkCall "A" "x", Ev.netProbe "data/A/x",
           Ev.checkCall "B" "x", Ev.netProbe "data/B/x"]⟩

/-- Configuration with two configured splits, for exercising the split
membership lookup. -/
def cfgTwoSplits : Cfg := { cfgW with splits := ["train", "val"] }

/-- Environment whose split files are all empty: no scene belongs to any
split. -/
def envNoSplits : Env := { envW with splitList := fun _ => [] }

/-- Environment where every transfer attempt is a truncated transfer
that leaves a partial file. -/
def envShort : Env := { envW with net := fun _ => AttemptOutcome.contentTooShort true }

/-- Environment where every transfer attempt fails with HTTP 404. -/
def envHttp404 : Env := { envW with net := fun _ => AttemptOutcome.httpError 404 "nf" }

/-- Configuration that selects assets through download options. -/
def cfgOpts : Cfg :=
  { cfgW with download_assets := none, download_options := some ["opt1", "opt2"] }

/-- A filesystem on which a run under `cfgW` has already fully
succeeded: both meta files and every scene's plain asset are present. -/
def fsAll : FS :=
  [("root/m1", FTag.file), ("root/m2", FTag.file),
   ("root/data/A/x", FTag.file), ("root/data/B/x", FTag.file), ("root/data/C/x", FTag.file)]

/- Theorems. -/

/-- After `os.remove(filename)`, the path no longer exists. -/
theorem pathExists_fsRemove (st : St) (p : String) : ¬ pathExists (fsRemove st p).fs p := by
  simp [fsRemove, pathExists, isFile, isDir, List.mem_filter]

/-- Boolean form of `pathExists_fsRemove`. -/
theorem decide_pathExists_fsRemove (st : St) (p : String) :
    decide (pathExists (fsRemove st p).fs p) = false :=
  decide_eq_false (pathExists_fsRemove st p)

/-- Behaviour of the retry loop when every attempt is a truncated
transfer: it errors out with `ContentTooShortError`, performs one attempt
per remaining trial (observable both in the ghost record and as `netGet`
events), and every attempt after the first starts with no file on disk. -/
theorem trials_go_all_short (env : Env) (url filename : String) (max_trials : Nat)
    (hnet : ∀ t, ∃ b, env.net t = AttemptOutcome.contentTooShort b) :
    ∀ rem i st, i + rem = max_trials → 1 ≤ rem →
      (urlretrieve_trials_go env url filename max_trials i rem st).result
          = Except.error Err.contentTooShort ∧
      (urlretrieve_trials_go env url filename max_trials i rem st).preExists
          = decide (pathExists st.fs filename) :: List.replicate (rem - 1) false ∧
      ((urlretrieve_trials_go env url filename max_trials i rem st).st.trace.filter
          Ev.isNet).length
          = (st.trace.filter Ev.isNet).length + rem := by
  intro rem
  induction rem with
  | zero => intro i st _ h1; omega
  | succ r ih =>
    intro i st hsum _
    obtain ⟨b, hb⟩ := hnet st.tick
    rcases Nat.eq_zero_or_pos r with hr | hr
    · subst hr
      have hguard : ¬ (i < max_trials - 1) := by omega
      cases b <;>
        simp [urlretrieve_trials_go, hb, hguard, fsCreateFile, List.filter_append, Ev.isNet]
    · have hguard : i < max_trials - 1 := by omega
      have k1 := fun st => (ih (i + 1) st (by omega) hr).1
      have k2 := fun st => (ih (i + 1) st (by omega) hr).2.1
      have k3 := fun st => (ih (i + 1) st (by omega) hr).2.2
      simp only [urlretrieve_trials_go, hb, hguard, if_true]
      cases b <;> simp only [Bool.false_eq_true, if_true, if_false, ite_true, ite_false]
      all_goals {
        split
        all_goals {
          refine ⟨k1 _, ?_, ?_⟩
          · rw [k2]
            first
              | rw [decide_pathExists_fsRemove]
              | skip
            obtain ⟨r2, rfl⟩ : ∃ r2, r = r2 + 1 := ⟨r - 1, by omega⟩
            clear ih k1 k3 hnet
            simp_all [List.replicate_succ, fsCreateFile, pathExists, isFile, isDir]
          · rw [k3]
            simp [fsRemove, fsCreateFile, List.filter_append, Ev.isNet]
            omega
        }
      }

/-- C2: if every transfer attempt fails with a truncated transfer
(`ContentTooShortError`), then `urlretrieve_multi_trials` performs
exactly `max_trials` attempts (one `netGet` request each) and re-raises
the error; and any partial file is deleted before each retry, so no
attempt after the first starts with the file on disk. -/
theorem c2_retry_bound (env : Env) (url filename : String) (max_trials : Nat) (st : St)
    (hmt : 1 ≤ max_trials)
    (hnet : ∀ t, ∃ b, env.net t = AttemptOutcome.contentTooShort b) :
    (urlretrieve_multi_trialsFull env url filename max_trials st).result
        = Except.error Err.contentTooShort ∧
    (urlretrieve_multi_trialsFull env url filename max_trials st).preExists.length
        = max_trials ∧
    (urlretrieve_multi_trialsFull env url filename max_trials st).preExists.tail
        = List.replicate (max_trials - 1) false ∧
    ((urlretrieve_multi_trialsFull env url filename max_trials st).st.trace.filter
        Ev.isNet).length
        = (st.trace.filter Ev.isNet).length + max_trials := by
  obtain ⟨h1, h2, h3⟩ :=
    trials_go_all_short env url filename max_trials hnet max_trials 0 st (by omega) hmt
  simp only [urlretrieve_multi_trialsFull]
  refine ⟨h1, ?_, ?_, h3⟩
  · rw [h2]
    simp [List.length_replicate]
    omega
  · rw [h2, List.tail_cons]

/-- Witness for `c2_retry_bound` at a concrete environment. -/
theorem c2_retry_bound_witness :
    (urlretrieve_multi_trialsFull envShort "u" "f" 5 ⟨[], 0, []⟩).result
        = Except.error Err.contentTooShort ∧
    (urlretrieve_multi_trialsFull envShort "u" "f" 5 ⟨[], 0, []⟩).preExists.length = 5 ∧
    (urlretrieve_multi_trialsFull envShort "u" "f" 5 ⟨[], 0, []⟩).preExists.tail
        = List.replicate 4 false ∧
    ((urlretrieve_multi_trialsFull envShort "u" "f" 5 ⟨[], 0, []⟩).st.trace.filter
        Ev.isNet).length
        = (([] : List Ev).filter Ev.isNet).length + 5 :=
  c2_retry_bound envShort "u" "f" 5 ⟨[], 0, []⟩ (by omega) (fun _ => ⟨true, rfl⟩)

/-- C3: if the first transfer attempt raises an `HTTPError` — whatever
the status code, including 401, 404 and 406 — `urlretrieve_multi_trials`
performs exactly one attempt and raises that error immediately, with no
retry. -/
theorem c3_no_retry_http (env : Env) (url filename : String) (max_trials : Nat) (st : St)
    (code : Nat) (body : String) (hmt : 1 ≤ max_trials)
    (hnet : env.net st.tick = AttemptOutcome.httpError code body) :
    (urlretrieve_multi_trialsFull env url filename max_trials st).result
        = Except.error (Err.httpError code body) ∧
    (urlretrieve_multi_trialsFull env url filename max_trials st).preExists.length = 1 ∧
    ((urlretrieve_multi_trialsFull env url filename max_trials st).st.trace.filter
        Ev.isNet).length = (st.trace.filter Ev.isNet).length + 1 := by
  obtain ⟨m, rfl⟩ : ∃ m, max_trials = m + 1 := ⟨max_trials - 1, by omega⟩
  simp [urlretrieve_multi_trialsFull, urlretrieve_trials_go, hnet, List.filter_append, Ev.isNet]

/-- Witness for `c3_no_retry_http` at a concrete environment. -/
theorem c3_no_retry_http_witness :
    (urlretrieve_multi_trialsFull envHttp404 "u" "f" 5 ⟨[], 0, []⟩).result
        = Except.error (Err.httpError 404 "nf") ∧
    (urlretrieve_multi_trialsFull envHttp404 "u" "f" 5 ⟨[], 0, []⟩).preExists.length = 1 ∧
    ((urlretrieve_multi_trialsFull envHttp404 "u" "f" 5 ⟨[], 0, []⟩).st.trace.filter
        Ev.isNet).length = (([] : List Ev).filter Ev.isNet).length + 1 :=
  c3_no_retry_http envHttp404 "u" "f" 5 ⟨[], 0, []⟩ 404 "nf" (by omega) rfl

/-- C10: `check_remote_file_exists` returns `True` when the HEAD request
succeeds and `False` when the server answers with an HTTP error status;
a non-HTTP transport failure (`URLError`) propagates as an exception and
in particular is never reported as `False`. -/
theorem c10_probe_classification :
    check_remote_file_exists ProbeOutcome.ok = Except.ok true ∧
    (∀ code body, check_remote_file_exists (ProbeOutcome.httpError code body)
        = Except.ok false) ∧
    check_remote_file_exists ProbeOutcome.urlError = Except.error Err.urlError ∧
    check_remote_file_exists ProbeOutcome.urlError ≠ Except.ok false :=
  ⟨rfl, fun _ _ => rfl, rfl, by decide⟩

/-- C4 (a bug in the code): with two configured splits whose membership
lists contain nothing, the Python loop-variable leak makes the lookup
return the LAST split instead of `None`, so the `assert` does not fire:
scene `s0`, which belongs to no split, is processed without any fatal
error and its asset is attempted under split `val`. -/
theorem c4_split_fallthrough :
    findSplitVar ["train", "val"] (fun _ => false) = some "val" ∧
    (processScene envNoSplits cfgTwoSplits ["x"] "s0" ⟨[], 0, []⟩ []).1
        = Except.ok ([], false) ∧
    Ev.checkCall "s0" "x"
        ∈ (processScene envNoSplits cfgTwoSplits ["x"] "s0" ⟨[], 0, []⟩ []).2.trace := by
  decide

/-- Processing a concatenation with the option-asset inner loop equals
processing the two halves in sequence. -/
theorem addAssets_append (acc l1 l2 : List String) :
    addAssets acc (l1 ++ l2) = addAssets (addAssets acc l1) l2 := by
  induction l1 generalizing acc with
  | nil => rfl
  | cons x xs ih =>
    simp only [List.cons_append, addAssets]
    by_cases hx : x ∈ acc <;> simp only [hx, if_true, if_false, ite_true, ite_false] <;>
      exact ih _

/-- The nested option loop is the inner loop applied to the
concatenation of all selected options' asset lists. -/
theorem collectAssets_eq (oa : String → List String) (opts : List String) :
    ∀ acc, collectAssets oa acc opts = addAssets acc (opts.flatMap oa) := by
  induction opts with
  | nil => intro acc; rfl
  | cons o os ih =>
    intro acc
    simp only [collectAssets, List.flatMap_cons]
    rw [addAssets_append]
    exact ih _

/-- Unfolding equation of `dedupFirst` on a cons cell. -/
theorem dedupFirst_cons (x : String) (xs : List String) :
    dedupFirst (x :: xs) = x :: dedupFirst (xs.filter (fun y => decide (y ≠ x))) := by
  rw [dedupFirst.eq_def]

/-- The inner loop keeps the accumulator and appends the first
occurrences of the not-yet-collected elements, in order. -/
theorem addAssets_eq_dedupFirst (l : List String) :
    ∀ acc, addAssets acc l = acc ++ dedupFirst (l.filter (fun y => decide (y ∉ acc))) := by
  induction l with
  | nil => intro acc; simp [addAssets, dedupFirst]
  | cons x xs ih =>
    intro acc
    by_cases hx : x ∈ acc
    · have hd : decide (x ∉ acc) = false := by simp [hx]
      simp only [addAssets, List.filter_cons, hd, Bool.false_eq_true, eq_self_iff_true,
        if_false, ite_false]
      rw [if_pos hx]
      exact ih acc
    · have hd : decide (x ∉ acc) = true := by simp [hx]
      simp only [addAssets, List.filter_cons, hd, eq_self_iff_true, if_true, ite_true]
      rw [if_neg hx]
      rw [ih (acc ++ [x]), dedupFirst_cons]
      rw [List.filter_filter]
      rw [List.append_assoc, List.singleton_append]
      have hpt : List.filter (fun y => decide (y ∉ acc ++ [x])) xs
          = List.filter (fun a => decide (a ≠ x) && decide (a ∉ acc)) xs := by
        apply List.filter_congr
        intro y _
        by_cases hyx : y = x <;> by_cases hya : y ∈ acc <;>
          simp [hyx, hya, List.mem_append]
      rw [hpt]

/-- C8: when assets are selected through download options, the resulting
asset list is the concatenation of the selected options' asset lists in
selection order with every duplicate after the first occurrence
removed. -/
theorem c8_dedup_options (cfg : Cfg) (opts : List String)
    (h1 : truthyL cfg.download_assets = false)
    (h2 : cfg.download_options = some opts)
    (h3 : opts ≠ []) :
    assetsOf cfg = dedupFirst (opts.flatMap cfg.option_assets) := by
  have ht : truthyL (some opts) = true := by
    simp [truthyL, List.isEmpty_iff, h3]
  simp only [assetsOf, h1, Bool.false_eq_true, if_false, ite_false, h2, ht, if_true, ite_true,
    Option.getD_some]
  rw [collectAssets_eq, addAssets_eq_dedupFirst]
  simp only [List.nil_append]
  congr 1
  apply List.filter_eq_self.mpr
  intro a _
  simp

/-- Witness for `c8_dedup_options`: the options `[{opt1: [x, y]},
{opt2: [y, z]}]` selected as `[opt1, opt2]` yield exactly `[x, y, z]`. -/
theorem c8_dedup_options_witness :
    assetsOf cfgOpts = dedupFirst (["opt1", "opt2"].flatMap cfgOpts.option_assets) ∧
    assetsOf cfgOpts = ["x", "y", "z"] :=
  ⟨c8_dedup_options cfgOpts ["opt1", "opt2"] (by decide) rfl (by decide), by decide⟩

/-- A state extends itself by no events. -/
theorem NewEvs_rfl (st : St) (P : Ev → Prop) : NewEvs st st P := fun _ h => Or.inl h

/-- A state trace-extends itself. -/
theorem TraceMono_rfl (st : St) : TraceMono st st := ⟨[], by simp⟩

/-- Trace extension is transitive. -/
theorem TraceMono_trans {a b c : St} (h1 : TraceMono a b) (h2 : TraceMono b c) :
    TraceMono a c := by
  obtain ⟨d1, hd1⟩ := h1
  obtain ⟨d2, hd2⟩ := h2
  exact ⟨d1 ++ d2, by rw [hd2, hd1, List.append_assoc]⟩

/-- An explicit suffix witnesses trace extension. -/
theorem TraceMono_append (st st2 : St) (delta : List Ev)
    (h : st2.trace = st.trace ++ delta) : TraceMono st st2 := ⟨delta, h⟩

/-- Whatever extends a trace keeps its members. -/
theorem TraceMono_mem {st st2 : St} (h : TraceMono st st2) {ev : Ev}
    (hm : ev ∈ st.trace) : ev ∈ st2.trace := by
  obtain ⟨d, hd⟩ := h
  rw [hd]
  exact List.mem_append_left _ hm

/-- Trace extension composes. -/
theorem NewEvs_trans {st1 st2 st3 : St} {P : Ev → Prop}
    (h12 : NewEvs st1 st2 P) (h23 : NewEvs st2 st3 P) : NewEvs st1 st3 P := by
  intro ev h
  rcases h23 ev h with h | h
  · exact h12 ev h
  · exact Or.inr h

/-- A state whose trace appends a block of events satisfying `P`
extends the original state by events satisfying `P`. -/
theorem NewEvs_of_sub {st : St} (st2 : St) (P : Ev → Prop) (delta : List Ev)
    (htr : st2.trace = st.trace ++ delta) (hP : ∀ e ∈ delta, P e) : NewEvs st st2 P := by
  intro ev h
  rw [htr] at h
  rcases List.mem_append.mp h with h | h
  · exact Or.inl h
  · exact Or.inr (hP ev h)

/-- The retry loop only adds transfer requests, file writes and file
deletions to the trace: in particular no scene-tagged marker. -/
theorem NewEvs_trials_go (env : Env) (url filename : String) (max_trials : Nat)
    (P : Ev → Prop) (h1 : P (Ev.netGet url)) (h2 : P (Ev.fsCreate filename))
    (h3 : P (Ev.fsDelete filename)) :
    ∀ rem i st, NewEvs st (urlretrieve_trials_go env url filename max_trials i rem st).st P := by
  intro rem
  induction rem with
  | zero => intro i st; exact NewEvs_rfl st P
  | succ r ih =>
    intro i st
    simp only [urlretrieve_trials_go]
    split
    · apply NewEvs_of_sub _ P [Ev.netGet url, Ev.fsCreate filename]
      · simp [fsCreateFile]
      · intro e he
        simp only [List.mem_cons, List.not_mem_nil, or_false] at he
        rcases he with rfl | rfl
        · exact h1
        · exact h2
    · split
      · refine NewEvs_trans ?_ (ih (i + 1) _)
        split <;> split <;>
          first
            | { apply NewEvs_of_sub _ P [Ev.netGet url, Ev.fsCreate filename, Ev.fsDelete filename]
                · simp [fsCreateFile, fsRemove]
                · intro e he
                  simp only [List.mem_cons, List.not_mem_nil, or_false] at he
                  rcases he with rfl | rfl | rfl
                  · exact h1
                  · exact h2
                  · exact h3 }
            | { apply NewEvs_of_sub _ P [Ev.netGet url, Ev.fsCreate filename]
                · simp [fsCreateFile, fsRemove]
                · intro e he
                  simp only [List.mem_cons, List.not_mem_nil, or_false] at he
                  rcases he with rfl | rfl
                  · exact h1
                  · exact h2 }
            | { apply NewEvs_of_sub _ P [Ev.netGet url, Ev.fsDelete filename]
                · simp [fsCreateFile, fsRemove]
                · intro e he
                  simp only [List.mem_cons, List.not_mem_nil, or_false] at he
                  rcases he with rfl | rfl
                  · exact h1
                  · exact h3 }
            | { apply NewEvs_of_sub _ P [Ev.netGet url]
                · simp [fsCreateFile, fsRemove]
                · intro e he
                  simp only [List.mem_cons, List.not_mem_nil, or_false] at he
                  rcases he with rfl
                  exact h1 }
      · split <;>
          first
            | { apply NewEvs_of_sub _ P [Ev.netGet url, Ev.fsCreate filename]
                · simp [fsCreateFile]
                · intro e he
                  simp only [List.mem_cons, List.not_mem_nil, or_false] at he
                  rcases he with rfl | rfl
                  · exact h1
                  · exact h2 }
            | { apply NewEvs_of_sub _ P [Ev.netGet url]
                · simp [fsCreateFile]
                · intro e he
                  simp only [List.mem_cons, List.not_mem_nil, or_false] at he
                  rcases he with rfl
                  exact h1 }
    · apply NewEvs_of_sub _ P [Ev.netGet url]
      · simp
      · intro e he
        simp only [List.mem_cons, List.not_mem_nil, or_false] at he
        rcases he with rfl
        exact h1
    · apply NewEvs_of_sub _ P [Ev.netGet url]
      · simp
      · intro e he
        simp only [List.mem_cons, List.not_mem_nil, or_false] at he
        rcases he with rfl
        exact h1

/-- The function `check_download_file` only adds probe, transfer, file-write,
file-delete and mkdir events: every new event is scene-untagged. -/
theorem NewEvs_check (env : Env) (token : String) (verbose : Bool)
    (t r l : String) (d : Bool) (st : St) (P : Ev → Prop)
    (hP : ∀ ev, Ev.sceneTag ev = none → P ev) :
    NewEvs st (check_download_file env token verbose t r l d st).2 P := by
  unfold check_download_file
  split
  · dsimp only
    split <;>
      { apply NewEvs_of_sub _ P [Ev.netProbe (buildUrl token t r)]
        · simp [logEv]
        · intro e he
          simp only [List.mem_cons, List.not_mem_nil, or_false] at he
          subst he
          exact hP _ rfl }
  · split
    · exact NewEvs_rfl st P
    · unfold download_file
      refine NewEvs_trans ?_
        (NewEvs_trials_go env _ l 5 P (hP _ rfl) (hP _ rfl) (hP _ rfl) 5 0 _)
      simp only [if_true, ite_true]
      unfold mkdirP
      split
      · exact NewEvs_rfl st P
      · apply NewEvs_of_sub _ P [Ev.fsMkdir (env.parentOf l)]
        · simp
        · intro e he
          simp only [List.mem_cons, List.not_mem_nil, or_false] at he
          subst he
          exact hP _ rfl

/-- Appending one event satisfying `P`. -/
theorem NewEvs_logEv (st : St) (e : Ev) (P : Ev → Prop) (h : P e) :
    NewEvs st (logEv st e) P := by
  apply NewEvs_of_sub _ P [e]
  · simp [logEv]
  · intro x hx
    simp only [List.mem_cons, List.not_mem_nil, or_false] at hx
    subst hx
    exact h

/-- A completed `check_download_file` call, given as an equation,
extends the trace only by scene-untagged events. -/
theorem NewEvs_after_check (env : Env) (token : String) (verbose : Bool)
    (t r l : String) (d : Bool) (st stc : St) (res : Except Err Bool)
    (heq : check_download_file env token verbose t r l d st = (res, stc))
    (P : Ev → Prop) (hP : ∀ ev, Ev.sceneTag ev = none → P ev) :
    NewEvs st stc P := by
  have h := NewEvs_check env token verbose t r l d st P hP
  rw [heq] at h
  exact h

/-- Archive extraction followed by zip deletion adds one extraction and
one deletion event. -/
theorem NewEvs_extract_remove (env : Env) (st : St) (p : String) (P : Ev → Prop)
    (h1 : P (Ev.fsExtract p)) (h2 : P (Ev.fsDelete p)) :
    NewEvs st (fsRemove (extractZip env st p) p) P := by
  apply NewEvs_of_sub _ P [Ev.fsExtract p, Ev.fsDelete p]
  · simp [fsRemove, extractZip]
  · intro e he
    simp only [List.mem_cons, List.not_mem_nil, or_false] at he
    rcases he with rfl | rfl
    · exact h1
    · exact h2

/-- Logging the ghost marker of a scene's own check call. -/
theorem NewEvs_logCheck (st : St) (scene a : String) :
    NewEvs st (logEv st (Ev.checkCall scene a))
      (fun ev => Ev.sceneTag ev = none ∨ Ev.sceneTag ev = some scene) :=
  NewEvs_logEv st (Ev.checkCall scene a) _ (Or.inr rfl)

/-- The asset loop of one scene adds only scene-untagged events and
ghost markers tagged with its own scene. -/
theorem NewEvs_assetLoop (env : Env) (cfg : Cfg) (scene split : String) :
    ∀ assets st missing,
      NewEvs st (assetLoop env cfg scene split assets st missing).2
        (fun ev => Ev.sceneTag ev = none ∨ Ev.sceneTag ev = some scene) := by
  intro assets
  induction assets with
  | nil => intro st missing; exact NewEvs_rfl _ _
  | cons a rest ih =>
    intro st missing
    simp only [assetLoop]
    split
    · exact ih st missing
    · split
      · split
        · exact ih st missing
        · split
          · rename_i e st1 heq
            exact NewEvs_trans (NewEvs_logCheck st scene a)
              (NewEvs_after_check _ _ _ _ _ _ _ _ _ _ heq _ (fun ev h => Or.inl h))
          · rename_i st1 heq
            exact NewEvs_trans (NewEvs_logCheck st scene a)
              (NewEvs_after_check _ _ _ _ _ _ _ _ _ _ heq _ (fun ev h => Or.inl h))
          · rename_i st1 heq
            have hstep := NewEvs_trans (NewEvs_logCheck st scene a)
              (NewEvs_after_check _ _ _ _ _ _ _ _ _ _ heq _ (fun ev h => Or.inl h))
            split
            · exact NewEvs_trans hstep
                (NewEvs_trans (NewEvs_extract_remove _ _ _ _ (Or.inl rfl) (Or.inl rfl)) (ih _ _))
            · exact NewEvs_trans hstep (ih _ _)
      · split
        · rename_i e st1 heq
          exact NewEvs_trans (NewEvs_logCheck st scene a)
            (NewEvs_after_check _ _ _ _ _ _ _ _ _ _ heq _ (fun ev h => Or.inl h))
        · rename_i st1 heq
          exact NewEvs_trans (NewEvs_logCheck st scene a)
            (NewEvs_after_check _ _ _ _ _ _ _ _ _ _ heq _ (fun ev h => Or.inl h))
        · rename_i st1 heq
          exact NewEvs_trans (NewEvs_trans (NewEvs_logCheck st scene a)
            (NewEvs_after_check _ _ _ _ _ _ _ _ _ _ heq _ (fun ev h => Or.inl h))) (ih _ _)

/-- Processing one scene adds only scene-untagged events and markers
tagged with that scene. -/
theorem NewEvs_processScene (env : Env) (cfg : Cfg) (da : List String) (scene : String)
    (st : St) (missing : List String) :
    NewEvs st (processScene env cfg da scene st missing).2
      (fun ev => Ev.sceneTag ev = none ∨ Ev.sceneTag ev = some scene) := by
  unfold processScene
  split
  · exact NewEvs_rfl _ _
  · exact NewEvs_assetLoop env cfg scene _ da st missing

/-- C1 (fail-fast across scenes): if scene `A` is processed without
error and scene `B` reports a failed fetch (the scene error flag comes
back `true`), then the scene loop on `[A, B, C]` stops right after `B` —
its result is exactly the state after `B` — and no asset of scene `C` is
ever attempted: the final trace contains no `checkCall` marker for `C`
beyond those already present before the loop. -/
theorem c1_fail_fast (env : Env) (cfg : Cfg) (da : List String) (A B C : String)
    (st0 : St) (m0 m1 m2 : List String) (st1 st2 : St)
    (hA : processScene env cfg da A st0 m0 = (Except.ok (m1, false), st1))
    (hB : processScene env cfg da B st1 m1 = (Except.ok (m2, true), st2))
    (hCA : C ≠ A) (hCB : C ≠ B) :
    sceneLoop env cfg da [A, B, C] st0 m0 = (Except.ok m2, st2) ∧
    ∀ a, Ev.checkCall C a ∈ st2.trace → Ev.checkCall C a ∈ st0.trace := by
  constructor
  · simp only [sceneLoop, hA, hB]
  · intro a hmem
    have hNB := NewEvs_processScene env cfg da B st1 m1
    rw [hB] at hNB
    rcases hNB _ hmem with h | h | h
    · have hNA := NewEvs_processScene env cfg da A st0 m0
      rw [hA] at hNA
      rcases hNA _ h with h2 | h2 | h2
      · exact h2
      · simp [Ev.sceneTag] at h2
      · simp only [Ev.sceneTag, Option.some.injEq] at h2
        exact absurd h2 hCA
    · simp [Ev.sceneTag] at h
    · simp only [Ev.sceneTag, Option.some.injEq] at h
      exact absurd h hCB

/-- Witness for `c1_fail_fast` at a concrete run: scene `B`'s probe
fails, the loop result is the state right after `B`, and no marker for
scene `C` appears. -/
theorem c1_fail_fast_witness :
    sceneLoop envW cfgW ["x"] ["A", "B", "C"] ⟨[], 0, []⟩ []
        = (Except.ok ["root/data/B/x"], stW2) ∧
    ∀ a, Ev.checkCall "C" a ∈ stW2.trace → Ev.checkCall "C" a ∈ (⟨[], 0, []⟩ : St).trace :=
  c1_fail_fast envW cfgW ["x"] "A" "B" "C" ⟨[], 0, []⟩ [] [] ["root/data/B/x"] stW1 stW2
    (by decide) (by decide) (by decide) (by decide)

/-- The trace only grows: the retry loop never removes trace events. -/
theorem trace_mono_trials (env : Env) (url filename : String) (max_trials : Nat) :
    ∀ rem i st, TraceMono st (urlretrieve_trials_go env url filename max_trials i rem st).st := by
  intro rem
  induction rem with
  | zero => intro i st; exact TraceMono_rfl st
  | succ r ih =>
    intro i st
    simp only [urlretrieve_trials_go]
    split
    · exact TraceMono_append _ _ [Ev.netGet url, Ev.fsCreate filename] (by simp [fsCreateFile])
    · split
      · refine TraceMono_trans ?_ (ih (i + 1) _)
        split <;> split <;>
          first
            | (apply TraceMono_append _ _
                [Ev.netGet url, Ev.fsCreate filename, Ev.fsDelete filename]
               <;> simp [fsCreateFile, fsRemove]) <;> done
            | (apply TraceMono_append _ _ [Ev.netGet url, Ev.fsCreate filename]
               <;> simp [fsCreateFile, fsRemove]) <;> done
            | (apply TraceMono_append _ _ [Ev.netGet url, Ev.fsDelete filename]
               <;> simp [fsCreateFile, fsRemove]) <;> done
            | (apply TraceMono_append _ _ [Ev.netGet url]
               <;> simp [fsCreateFile, fsRemove]) <;> done
      · split <;>
          first
            | (apply TraceMono_append _ _ [Ev.netGet url, Ev.fsCreate filename]
               <;> simp [fsCreateFile]) <;> done
            | (apply TraceMono_append _ _ [Ev.netGet url] <;> simp) <;> done
    · exact TraceMono_append _ _ [Ev.netGet url] (by simp)
    · exact TraceMono_append _ _ [Ev.netGet url] (by simp)

/-- The trace only grows through `check_download_file`. -/
theorem trace_mono_check (env : Env) (token : String) (verbose : Bool)
    (t r l : String) (d : Bool) (st : St) :
    TraceMono st (check_download_file env token verbose t r l d st).2 := by
  unfold check_download_file
  split
  · dsimp only
    split <;> exact TraceMono_append _ _ [Ev.netProbe (buildUrl token t r)] (by simp [logEv])
  · split
    · exact TraceMono_rfl st
    · unfold download_file
      refine TraceMono_trans ?_ (trace_mono_trials env _ l 5 5 0 _)
      simp only [if_true, ite_true]
      unfold mkdirP
      split
      · exact TraceMono_rfl st
      · exact TraceMono_append _ _ [Ev.fsMkdir (env.parentOf l)] (by simp)

/-- The trace only grows through the meta-file loop. -/
theorem trace_mono_metaLoop (env : Env) (cfg : Cfg) :
    ∀ metas st missing, TraceMono st (metaLoop env cfg metas st missing).2 := by
  intro metas
  induction metas with
  | nil => intro st missing; exact TraceMono_rfl st
  | cons p rest ih =>
    intro st missing
    simp only [metaLoop]
    split
    · rename_i e st1 heq
      have h := trace_mono_check env cfg.token cfg.verbose cfg.root_url p
        (pathJoin cfg.data_root p) cfg.dry_run st
      rw [heq] at h
      exact h
    · rename_i st1 heq
      have h := trace_mono_check env cfg.token cfg.verbose cfg.root_url p
        (pathJoin cfg.data_root p) cfg.dry_run st
      rw [heq] at h
      exact TraceMono_trans h (ih _ _)
    · rename_i st1 heq
      have h := trace_mono_check env cfg.token cfg.verbose cfg.root_url p
        (pathJoin cfg.data_root p) cfg.dry_run st
      rw [heq] at h
      exact TraceMono_trans h (ih _ _)

/-- In dry-run mode, `check_download_file` issues exactly the HEAD
probe and returns its classification. -/
theorem check_dry_eq (env : Env) (token : String) (verbose : Bool) (t r l : String)
    (st : St) :
    check_download_file env token verbose t r l true st
      = (match check_remote_file_exists (env.probe (buildUrl token t r)) with
         | Except.ok b => (Except.ok b, logEv st (Ev.netProbe (buildUrl token t r)))
         | Except.error e => (Except.error e, logEv st (Ev.netProbe (buildUrl token t r)))) :=
  rfl

/-- C5 (amended): in the meta-file stage a returned fetch failure (the
probe reporting the remote file missing, which arises in dry-run mode)
is soft: the path is recorded in the missing list and the loop continues
to the next meta-file, probing every meta file; the loop returns
normally with exactly the failed meta files appended to the missing
list.  Raised fatal errors, by contrast, propagate and terminate the
run even in the meta stage. -/
theorem c5_meta_soft (env : Env) (cfg : Cfg)
    (hdry : cfg.dry_run = true)
    (hprobe : ∀ u, env.probe u ≠ ProbeOutcome.urlError) :
    ∀ metas st missing,
      (metaLoop env cfg metas st missing).1
          = Except.ok (missing ++ (metas.filter
              (fun p => isHttpErr (env.probe (buildUrl cfg.token cfg.root_url p)))).map
              (pathJoin cfg.data_root)) ∧
      ∀ p ∈ metas, Ev.netProbe (buildUrl cfg.token cfg.root_url p)
          ∈ (metaLoop env cfg metas st missing).2.trace := by
  intro metas
  induction metas with
  | nil =>
    intro st missing
    exact ⟨by simp [metaLoop], by simp⟩
  | cons p rest ih =>
    intro st missing
    rcases henv : env.probe (buildUrl cfg.token cfg.root_url p) with _ | ⟨code, body⟩ | _
    · have hc : check_download_file env cfg.token cfg.verbose cfg.root_url p
          (pathJoin cfg.data_root p) cfg.dry_run st
          = (Except.ok true, logEv st (Ev.netProbe (buildUrl cfg.token cfg.root_url p))) := by
        rw [hdry, check_dry_eq, henv]
        rfl
      simp only [metaLoop, hc]
      constructor
      · rw [(ih _ _).1]
        simp [List.filter_cons, henv, isHttpErr]
      · intro q hq
        rcases List.mem_cons.mp hq with rfl | hq
        · exact TraceMono_mem (trace_mono_metaLoop env cfg rest _ _) (by simp [logEv])
        · exact (ih _ _).2 q hq
    · have hc : check_download_file env cfg.token cfg.verbose cfg.root_url p
          (pathJoin cfg.data_root p) cfg.dry_run st
          = (Except.ok false, logEv st (Ev.netProbe (buildUrl cfg.token cfg.root_url p))) := by
        rw [hdry, check_dry_eq, henv]
        rfl
      simp only [metaLoop, hc]
      constructor
      · rw [(ih _ _).1]
        simp [List.filter_cons, henv, isHttpErr, List.append_assoc]
      · intro q hq
        rcases List.mem_cons.mp hq with rfl | hq
        · exact TraceMono_mem (trace_mono_metaLoop env cfg rest _ _) (by simp [logEv])
        · exact (ih _ _).2 q hq
    · exact absurd henv (hprobe _)

/-- Witness for `c5_meta_soft`: both meta files are probed, `m2`'s
probe never fails under `envW`, and the loop returns normally. -/
theorem c5_meta_soft_witness :
    (metaLoop envW cfgW ["m1", "m2"] ⟨[], 0, []⟩ []).1
        = Except.ok ([] ++ ((["m1", "m2"].filter
            (fun p => isHttpErr (envW.probe (buildUrl cfgW.token cfgW.root_url p)))).map
            (pathJoin cfgW.data_root))) ∧
    ∀ p ∈ ["m1", "m2"], Ev.netProbe (buildUrl cfgW.token cfgW.root_url p)
        ∈ (metaLoop envW cfgW ["m1", "m2"] ⟨[], 0, []⟩ []).2.trace :=
  c5_meta_soft envW cfgW rfl
    (fun u => by unfold envW; dsimp only; split <;> simp)
    ["m1", "m2"] ⟨[], 0, []⟩ []

/-- C5 counterexample (to the original claim): in a non-dry-run, a fatal
fetch error (HTTP 404) on the FIRST meta file propagates out of the
meta-file stage and terminates the run — it is not collected into the
missing list — and the second meta file is never attempted. -/
theorem c5_counterexample :
    (run envHttp404 { cfgW with dry_run := false } []).1
        = Except.error (Err.httpError 404 "nf") ∧
    Ev.netGet "m1" ∈ (run envHttp404 { cfgW with dry_run := false } []).2.trace ∧
    Ev.netGet "m2" ∉ (run envHttp404 { cfgW with dry_run := false } []).2.trace := by
  decide

/-- Creating a directory adds at most its own event. -/
theorem NewEvs_mkdirP (st : St) (p : String) (P : Ev → Prop) (hp : P (Ev.fsMkdir p)) :
    NewEvs st (mkdirP st p) P := by
  unfold mkdirP
  split
  · exact NewEvs_rfl _ _
  · apply NewEvs_of_sub _ P [Ev.fsMkdir p]
    · simp
    · intro e he
      simp only [List.mem_cons, List.not_mem_nil, or_false] at he
      subst he
      exact hp

/-- In dry-run mode `check_download_file` adds only the probe event. -/
theorem NewEvs_check_dry (env : Env) (token : String) (verbose : Bool)
    (t r l : String) (st : St) (P : Ev → Prop)
    (hp : ∀ u, P (Ev.netProbe u)) :
    NewEvs st (check_download_file env token verbose t r l true st).2 P := by
  rw [check_dry_eq]
  split
  · exact NewEvs_logEv st _ P (hp _)
  · exact NewEvs_logEv st _ P (hp _)

/-- A completed dry-run `check_download_file` call, given as an
equation, adds only the probe event. -/
theorem NewEvs_after_check_dry (env : Env) (token : String) (verbose : Bool)
    (t r l : String) (st stc : St) (res : Except Err Bool)
    (heq : check_download_file env token verbose t r l true st = (res, stc))
    (P : Ev → Prop) (hp : ∀ u, P (Ev.netProbe u)) :
    NewEvs st stc P := by
  have h := NewEvs_check_dry env token verbose t r l st P hp
  rw [heq] at h
  exact h

/-- In dry-run mode the meta-file loop adds only probe events. -/
theorem NewEvs_metaLoop_dry (env : Env) (cfg : Cfg) (hdry : cfg.dry_run = true)
    (P : Ev → Prop) (hp : ∀ u, P (Ev.netProbe u)) :
    ∀ metas st missing, NewEvs st (metaLoop env cfg metas st missing).2 P := by
  intro metas
  induction metas with
  | nil => intro st missing; exact NewEvs_rfl _ _
  | cons p rest ih =>
    intro st missing
    simp only [metaLoop, hdry]
    split
    · rename_i e st1 heq
      have h := NewEvs_check_dry env cfg.token cfg.verbose cfg.root_url p
        (pathJoin cfg.data_root p) st P hp
      rw [heq] at h
      exact h
    · rename_i st1 heq
      have h := NewEvs_check_dry env cfg.token cfg.verbose cfg.root_url p
        (pathJoin cfg.data_root p) st P hp
      rw [heq] at h
      exact NewEvs_trans h (ih _ _)
    · rename_i st1 heq
      have h := NewEvs_check_dry env cfg.token cfg.verbose cfg.root_url p
        (pathJoin cfg.data_root p) st P hp
      rw [heq] at h
      exact NewEvs_trans h (ih _ _)

/-- A completed dry-run meta loop, given as an equation, adds only
probe events. -/
theorem NewEvs_after_metaLoop_dry (env : Env) (cfg : Cfg) (hdry : cfg.dry_run = true)
    (metas : List String) (st stc : St) (missing : List String)
    (res : Except Err (List String))
    (heq : metaLoop env cfg metas st missing = (res, stc))
    (P : Ev → Prop) (hp : ∀ u, P (Ev.netProbe u)) : NewEvs st stc P := by
  have h := NewEvs_metaLoop_dry env cfg hdry P hp metas st missing
  rw [heq] at h
  exact h

/-- In dry-run mode the ScanNet++GS loop adds only probe events. -/
theorem NewEvs_gsLoop_dry (env : Env) (cfg : Cfg) (hdry : cfg.dry_run = true)
    (gs_dir : String) (P : Ev → Prop) (hp : ∀ u, P (Ev.netProbe u)) :
    ∀ scenes st, NewEvs st (gsLoop env cfg gs_dir scenes st).2 P := by
  intro scenes
  induction scenes with
  | nil => intro st; exact NewEvs_rfl _ _
  | cons s rest ih =>
    intro st
    simp only [gsLoop, hdry]
    split
    · rename_i e st1 heq
      exact NewEvs_after_check_dry _ _ _ _ _ _ _ _ _ heq P hp
    · rename_i st1 heq
      exact NewEvs_after_check_dry _ _ _ _ _ _ _ _ _ heq P hp
    · rename_i st1 heq
      exact NewEvs_trans (NewEvs_after_check_dry _ _ _ _ _ _ _ _ _ heq P hp) (ih _)

/-- A completed dry-run ScanNet++GS loop, given as an equation, adds
only probe events. -/
theorem NewEvs_after_gsLoop_dry (env : Env) (cfg : Cfg) (hdry : cfg.dry_run = true)
    (gs_dir : String) (scenes : List String) (st stc : St) (res : Except Err Unit)
    (heq : gsLoop env cfg gs_dir scenes st = (res, stc))
    (P : Ev → Prop) (hp : ∀ u, P (Ev.netProbe u)) : NewEvs st stc P := by
  have h := NewEvs_gsLoop_dry env cfg hdry gs_dir P hp scenes st
  rw [heq] at h
  exact h

/-- In dry-run mode the asset loop adds only probe events and ghost
markers: extraction and zip deletion are skipped. -/
theorem NewEvs_assetLoop_dry (env : Env) (cfg : Cfg) (hdry : cfg.dry_run = true)
    (scene split : String) (P : Ev → Prop)
    (hp : ∀ u, P (Ev.netProbe u)) (hcc : ∀ s a, P (Ev.checkCall s a)) :
    ∀ assets st missing, NewEvs st (assetLoop env cfg scene split assets st missing).2 P := by
  intro assets
  induction assets with
  | nil => intro st missing; exact NewEvs_rfl _ _
  | cons a rest ih =>
    intro st missing
    simp only [assetLoop, hdry, Bool.not_true, Bool.false_eq_true, if_false, ite_false]
    split
    · exact ih st missing
    · split
      · split
        · exact ih st missing
        · split
          · rename_i e st1 heq
            exact NewEvs_trans (NewEvs_logEv st _ P (hcc scene a))
              (NewEvs_after_check_dry _ _ _ _ _ _ _ _ _ heq P hp)
          · rename_i st1 heq
            exact NewEvs_trans (NewEvs_logEv st _ P (hcc scene a))
              (NewEvs_after_check_dry _ _ _ _ _ _ _ _ _ heq P hp)
          · rename_i st1 heq
            exact NewEvs_trans
              (NewEvs_trans (NewEvs_logEv st _ P (hcc scene a))
                (NewEvs_after_check_dry _ _ _ _ _ _ _ _ _ heq P hp)) (ih _ _)
      · split
        · rename_i e st1 heq
          exact NewEvs_trans (NewEvs_logEv st _ P (hcc scene a))
            (NewEvs_after_check_dry _ _ _ _ _ _ _ _ _ heq P hp)
        · rename_i st1 heq
          exact NewEvs_trans (NewEvs_logEv st _ P (hcc scene a))
            (NewEvs_after_check_dry _ _ _ _ _ _ _ _ _ heq P hp)
        · rename_i st1 heq
          exact NewEvs_trans
            (NewEvs_trans (NewEvs_logEv st _ P (hcc scene a))
              (NewEvs_after_check_dry _ _ _ _ _ _ _ _ _ heq P hp)) (ih _ _)

/-- In dry-run mode processing one scene adds only probe events and
ghost markers. -/
theorem NewEvs_processScene_dry (env : Env) (cfg : Cfg) (hdry : cfg.dry_run = true)
    (da : List String) (scene : String) (st : St) (missing : List String)
    (P : Ev → Prop) (hp : ∀ u, P (Ev.netProbe u)) (hcc : ∀ s a, P (Ev.checkCall s a)) :
    NewEvs st (processScene env cfg da scene st missing).2 P := by
  unfold processScene
  split
  · exact NewEvs_rfl _ _
  · exact NewEvs_assetLoop_dry env cfg hdry scene _ P hp hcc da st missing

/-- In dry-run mode the scene loop adds only probe events and ghost
markers. -/
theorem NewEvs_sceneLoop_dry (env : Env) (cfg : Cfg) (hdry : cfg.dry_run = true)
    (da : List String) (P : Ev → Prop)
    (hp : ∀ u, P (Ev.netProbe u)) (hcc : ∀ s a, P (Ev.checkCall s a)) :
    ∀ scenes st missing, NewEvs st (sceneLoop env cfg da scenes st missing).2 P := by
  intro scenes
  induction scenes with
  | nil => intro st missing; exact NewEvs_rfl _ _
  | cons s rest ih =>
    intro st missing
    simp only [sceneLoop]
    split
    · rename_i e st1 heq
      have h := NewEvs_processScene_dry env cfg hdry da s st missing P hp hcc
      rw [heq] at h
      exact h
    · rename_i m1 st1 heq
      have h := NewEvs_processScene_dry env cfg hdry da s st missing P hp hcc
      rw [heq] at h
      exact h
    · rename_i m1 st1 heq
      have h := NewEvs_processScene_dry env cfg hdry da s st missing P hp hcc
      rw [heq] at h
      exact NewEvs_trans h (ih _ _)

/-- C7 (amended): under dry-run the only filesystem mutation the whole
run can perform is the creation of the data-root directory (line 212's
unconditional `mkdir`, issued before any fetch): every other trace event
is a probe or a ghost marker, so `check_download_file` only probes,
archive extraction and zip deletion are skipped, and no other file or
directory is created, modified or deleted — regardless of remote
outcomes. -/
theorem c7_dry_run_mutations (env : Env) (cfg : Cfg) (fs0 : FS)
    (hdry : cfg.dry_run = true) :
    ∀ ev ∈ (run env cfg fs0).2.trace, Ev.isMut ev = true → ev = Ev.fsMkdir cfg.data_root := by
  have hp : ∀ u, (Ev.isMut (Ev.netProbe u) = true → Ev.netProbe u = Ev.fsMkdir cfg.data_root) := by
    intro u h
    simp [Ev.isMut] at h
  have hcc : ∀ s a,
      (Ev.isMut (Ev.checkCall s a) = true → Ev.checkCall s a = Ev.fsMkdir cfg.data_root) := by
    intro s a h
    simp [Ev.isMut] at h
  have hnew : NewEvs ⟨fs0, 0, []⟩ (run env cfg fs0).2
      (fun ev => Ev.isMut ev = true → ev = Ev.fsMkdir cfg.data_root) := by
    have h0 : NewEvs ⟨fs0, 0, []⟩ (mkdirP ⟨fs0, 0, []⟩ cfg.data_root)
        (fun ev => Ev.isMut ev = true → ev = Ev.fsMkdir cfg.data_root) :=
      NewEvs_mkdirP _ _ _ (fun _ => rfl)
    simp only [run]
    rcases heqM : metaLoop env cfg cfg.meta_files (mkdirP ⟨fs0, 0, []⟩ cfg.data_root) []
      with ⟨res, st2⟩
    have h02 := NewEvs_trans h0 (NewEvs_after_metaLoop_dry env cfg hdry _ _ _ _ _ heqM _ hp)
    rcases res with e | missing
    · exact h02
    · dsimp only
      split
      · exact h02
      · rcases heqS : scenesOf env cfg with _ | scene_ids
        · exact h02
        · dsimp only
          split
          · rcases heqG : gsLoop env cfg (cfg.scannetpp_gs_dir.getD "") scene_ids st2
              with ⟨resG, st3⟩
            rcases resG with e | u <;> dsimp only <;>
              exact NewEvs_trans h02
                (NewEvs_after_gsLoop_dry env cfg hdry _ _ _ _ _ heqG _ hp)
          · exact NewEvs_trans h02
              (NewEvs_sceneLoop_dry env cfg hdry (assetsOf cfg) _ hp hcc _ _ _)
  intro ev hmem hmut
  rcases hnew ev hmem with h | h
  · simp at h
  · exact h hmut

/-- Witness for `c7_dry_run_mutations`, instantiated at the one mutation
event the concrete dry run performs: it is indeed the data-root mkdir. -/
theorem c7_dry_run_mutations_witness :
    Ev.fsMkdir "root" = Ev.fsMkdir cfgW.data_root :=
  c7_dry_run_mutations envW cfgW [] rfl (Ev.fsMkdir "root") (by decide) (by decide)

/-- C7 counterexample (to the original claim): a dry run over an empty
filesystem still mutates it — the data-root directory is created by
line 212's `mkdir` — so it is not true that a dry run creates nothing. -/
theorem c7_counterexample :
    cfgW.dry_run = true ∧
    (run envW cfgW []).2.trace.filter Ev.isMut = [Ev.fsMkdir "root"] ∧
    ((run envW cfgW []).2.trace.filter Ev.isMut ≠ []) := by
  decide

/-- The retry loop never evaluates to `Except.ok false` when it performs
at least one trial: the trailing `return False` is unreachable. -/
theorem trials_go_ne_false (env : Env) (url filename : String) (max_trials : Nat) :
    ∀ rem i st, i + rem = max_trials → 1 ≤ rem →
      (urlretrieve_trials_go env url filename max_trials i rem st).result
        ≠ Except.ok false := by
  intro rem
  induction rem with
  | zero => intro i st _ h; omega
  | succ r ih =>
    intro i st hsum _
    simp only [urlretrieve_trials_go]
    split
    · simp
    · split
      · rename_i hguard
        dsimp only
        exact ih (i + 1) _ (by omega) (by omega)
      · simp
    · simp
    · simp

/-- Outside dry-run mode, `check_download_file` never returns `False`. -/
theorem check_ne_false (env : Env) (token : String) (verbose : Bool)
    (t r l : String) (st : St) :
    (check_download_file env token verbose t r l false st).1 ≠ Except.ok false := by
  unfold check_download_file
  simp only [Bool.false_eq_true, if_false, ite_false]
  split
  · simp
  · unfold download_file
    simp only [if_true, ite_true]
    unfold urlretrieve_multi_trials urlretrieve_multi_trialsFull
    dsimp only
    exact trials_go_ne_false env _ l 5 5 0 _ (by omega) (by omega)

/-- A `check_download_file` call outside dry-run that allegedly returned
`False` is absurd. -/
theorem check_ne_false_after (env : Env) (token : String) (verbose : Bool)
    (t r l : String) (st stc : St)
    (heq : check_download_file env token verbose t r l false st = (Except.ok false, stc)) :
    False := by
  have h := check_ne_false env token verbose t r l st
  rw [heq] at h
  exact h rfl

/-- Outside dry-run mode the meta loop cannot extend the missing list. -/
theorem metaLoop_missing_nondry (env : Env) (cfg : Cfg) (hdry : cfg.dry_run = false) :
    ∀ metas st missing m,
      (metaLoop env cfg metas st missing).1 = Except.ok m → m = missing := by
  intro metas
  induction metas with
  | nil =>
    intro st missing m h
    simp only [metaLoop] at h
    exact (Except.ok.inj h).symm
  | cons p rest ih =>
    intro st missing m h
    simp only [metaLoop] at h
    split at h
    · simp at h
    · exact ih _ _ _ h
    · rename_i st1 heq
      rw [hdry] at heq
      exact (check_ne_false_after _ _ _ _ _ _ _ _ heq).elim

/-- Outside dry-run mode the asset loop cannot extend the missing list
nor set the scene error flag. -/
theorem assetLoop_missing_nondry (env : Env) (cfg : Cfg) (hdry : cfg.dry_run = false)
    (scene split : String) :
    ∀ assets st missing m flag,
      (assetLoop env cfg scene split assets st missing).1 = Except.ok (m, flag) →
      m = missing ∧ flag = false := by
  intro assets
  induction assets with
  | nil =>
    intro st missing m flag h
    simp only [assetLoop] at h
    have h2 := Except.ok.inj h
    exact ⟨(congrArg Prod.fst h2).symm, (congrArg Prod.snd h2).symm⟩
  | cons a rest ih =>
    intro st missing m flag h
    simp only [assetLoop] at h
    split at h
    · exact ih _ _ _ _ h
    · split at h
      · split at h
        · exact ih _ _ _ _ h
        · split at h
          · simp at h
          · rename_i st1 heq
            rw [hdry] at heq
            exact (check_ne_false_after _ _ _ _ _ _ _ _ heq).elim
          · split at h
            · exact ih _ _ _ _ h
            · exact ih _ _ _ _ h
      · split at h
        · simp at h
        · rename_i st1 heq
          rw [hdry] at heq
          exact (check_ne_false_after _ _ _ _ _ _ _ _ heq).elim
        · exact ih _ _ _ _ h

/-- Outside dry-run mode the scene loop cannot extend the missing list. -/
theorem sceneLoop_missing_nondry (env : Env) (cfg : Cfg) (hdry : cfg.dry_run = false)
    (da : List String) :
    ∀ scenes st missing m,
      (sceneLoop env cfg da scenes st missing).1 = Except.ok m → m = missing := by
  intro scenes
  induction scenes with
  | nil =>
    intro st missing m h
    simp only [sceneLoop] at h
    exact (Except.ok.inj h).symm
  | cons s rest ih =>
    intro st missing m h
    simp only [sceneLoop] at h
    split at h
    · simp at h
    · rename_i m1 st1 heq
      unfold processScene at heq
      split at heq
      · simp at heq
      · have h2 := assetLoop_missing_nondry env cfg hdry s _ da st missing m1 true
          (by rw [heq])
        simp at h2
    · rename_i m1 st1 heq
      have hm := ih _ _ _ h
      unfold processScene at heq
      split at heq
      · simp at heq
      · have h2 := assetLoop_missing_nondry env cfg hdry s _ da st missing m1 false
          (by rw [heq])
        rw [hm, h2.1]

/-- C9: `urlretrieve_multi_trials` never returns `False` for a positive
trial count — every call either returns `True` or raises, the trailing
`return False` being unreachable; consequently, outside dry-run mode,
`check_download_file` never returns `False` either, and a non-dry run
that finishes normally always finishes with an empty missing list: the
missing list can only be populated in dry-run mode. -/
theorem c9_no_false :
    (∀ env url filename max_trials st, 1 ≤ max_trials →
        (urlretrieve_multi_trials env url filename max_trials st).1 ≠ Except.ok false) ∧
    (∀ env token verbose t r l st,
        (check_download_file env token verbose t r l false st).1 ≠ Except.ok false) ∧
    (∀ env cfg fs0 m, cfg.dry_run = false →
        (run env cfg fs0).1 = Except.ok m → m = []) := by
  refine ⟨?_, ?_, ?_⟩
  · intro env url filename max_trials st hmt
    unfold urlretrieve_multi_trials urlretrieve_multi_trialsFull
    dsimp only
    exact trials_go_ne_false env url filename max_trials max_trials 0 st (by omega) hmt
  · intro env token verbose t r l st
    exact check_ne_false env token verbose t r l st
  · intro env cfg fs0 m hdry hrun
    simp only [run] at hrun
    rcases heqM : metaLoop env cfg cfg.meta_files (mkdirP ⟨fs0, 0, []⟩ cfg.data_root) []
      with ⟨res, st2⟩
    rw [heqM] at hrun
    rcases res with e | missing
    · simp at hrun
    · have hmiss : missing = [] :=
        metaLoop_missing_nondry env cfg hdry cfg.meta_files _ [] missing (by rw [heqM])
      subst hmiss
      dsimp only at hrun
      split at hrun
      · exact (Except.ok.inj hrun).symm
      · rcases heqS : scenesOf env cfg with _ | scene_ids
        all_goals rw [heqS] at hrun
        · simp at hrun
        · dsimp only at hrun
          split at hrun
          · rcases heqG : gsLoop env cfg (cfg.scannetpp_gs_dir.getD "") scene_ids st2
              with ⟨resG, st3⟩
            rw [heqG] at hrun
            rcases resG with e | u
            · simp at hrun
            · exact (Except.ok.inj hrun).symm
          · exact sceneLoop_missing_nondry env cfg hdry (assetsOf cfg) scene_ids st2 [] m hrun

/-- Witness for `c9_no_false` at concrete inputs: a truncated-transfer
environment for the retry part, an existing local file for the check
part, and a fully successful non-dry run for the run part. -/
theorem c9_no_false_witness :
    (urlretrieve_multi_trials envShort "u" "f" 5 ⟨[], 0, []⟩).1 ≠ Except.ok false ∧
    (check_download_file envW "tk" false "FILEPATH" "m1" "root/m1" false
        ⟨[("root/m1", FTag.file)], 0, []⟩).1 ≠ Except.ok false ∧
    ([] : List String) = [] :=
  ⟨c9_no_false.1 envShort "u" "f" 5 ⟨[], 0, []⟩ (by omega),
   c9_no_false.2.1 envW "tk" false "FILEPATH" "m1" "root/m1" ⟨[("root/m1", FTag.file)], 0, []⟩,
   c9_no_false.2.2 envW { cfgW with dry_run := false } [] [] rfl (by decide)⟩

/-- A `check_download_file` call whose local file already exists returns
`True` without touching the state. -/
theorem check_exists_eq (env : Env) (token : String) (verbose : Bool)
    (t r l : String) (st : St) (hfile : isFile st.fs l) :
    check_download_file env token verbose t r l false st = (Except.ok true, st) := by
  unfold check_download_file
  simp [hfile]

/-- Creating a directory preserves every existing filesystem entry. -/
theorem mkdirP_fs_mono (st : St) (p q : String) (tag : FTag)
    (h : (q, tag) ∈ st.fs) : (q, tag) ∈ (mkdirP st p).fs := by
  unfold mkdirP
  split
  · exact h
  · exact List.mem_cons_of_mem _ h

/-- Creating a directory adds no network event. -/
theorem mkdirP_filter_net (st : St) (p : String) :
    (mkdirP st p).trace.filter Ev.isNet = st.trace.filter Ev.isNet := by
  unfold mkdirP
  split
  · rfl
  · simp [Ev.isNet, List.filter_append]

/-- When every meta file is already on disk, the meta loop is a no-op. -/
theorem metaLoop_all_exists (env : Env) (cfg : Cfg) (hdry : cfg.dry_run = false) :
    ∀ metas st missing, (∀ p ∈ metas, isFile st.fs (pathJoin cfg.data_root p)) →
      metaLoop env cfg metas st missing = (Except.ok missing, st) := by
  intro metas
  induction metas with
  | nil => intro st missing _; rfl
  | cons p rest ih =>
    intro st missing hex
    have hc := check_exists_eq env cfg.token cfg.verbose cfg.root_url p
      (pathJoin cfg.data_root p) st (hex p (List.mem_cons_self p rest))
    simp only [metaLoop, hdry, hc]
    exact ih st missing (fun q hq => hex q (List.mem_cons_of_mem _ hq))

/-- When every GS point cloud is already on disk, the GS loop is a
no-op. -/
theorem gsLoop_all_exists (env : Env) (cfg : Cfg) (hdry : cfg.dry_run = false)
    (gs_dir : String) :
    ∀ scenes st,
      (∀ s ∈ scenes, isFile st.fs (pathJoin gs_dir (s ++ "/point_cloud_30000.ply"))) →
      gsLoop env cfg gs_dir scenes st = (Except.ok (), st) := by
  intro scenes
  induction scenes with
  | nil => intro st _; rfl
  | cons s rest ih =>
    intro st hex
    have hc := check_exists_eq env cfg.token cfg.verbose cfg.scannetpp_gs_url
      (pathJoin (pathJoin (pathJoin "scannetpp_gs" s) "ckpts") "point_cloud_30000.ply")
      (pathJoin gs_dir (s ++ "/point_cloud_30000.ply")) st (hex s (List.mem_cons_self s rest))
    simp only [gsLoop, hdry, hc]
    exact ih st (fun q hq => hex q (List.mem_cons_of_mem _ hq))

/-- When every non-excluded asset target of the scene is already on
disk, the asset loop succeeds without error flag, leaves the filesystem
unchanged and issues no network request. -/
theorem assetLoop_all_exists (env : Env) (cfg : Cfg) (hdry : cfg.dry_run = false)
    (scene split : String) :
    ∀ assets st missing,
      (∀ a ∈ assets, a ∉ cfg.exclude_assets split →
        ((a ∈ cfg.zipped_assets →
            isFile st.fs (env.layout (pathJoin cfg.data_root "data") scene a)
              ∨ isDir st.fs (env.layout (pathJoin cfg.data_root "data") scene a)) ∧
         (a ∉ cfg.zipped_assets →
            isFile st.fs (env.layout (pathJoin cfg.data_root "data") scene a)))) →
      (assetLoop env cfg scene split assets st missing).1 = Except.ok (missing, false) ∧
      (assetLoop env cfg scene split assets st missing).2.fs = st.fs ∧
      (assetLoop env cfg scene split assets st missing).2.trace.filter Ev.isNet
          = st.trace.filter Ev.isNet := by
  intro assets
  induction assets with
  | nil => intro st missing _; exact ⟨rfl, rfl, rfl⟩
  | cons a rest ih =>
    intro st missing hex
    by_cases hexc : a ∈ cfg.exclude_assets split
    · simp only [assetLoop]
      rw [if_pos hexc]
      exact ih st missing (fun b hb => hex b (List.mem_cons_of_mem _ hb))
    · by_cases hzip : a ∈ cfg.zipped_assets
      · have hx := (hex a (List.mem_cons_self a rest) hexc).1 hzip
        simp only [assetLoop]
        rw [if_neg hexc, if_pos hzip, if_pos hx]
        exact ih st missing (fun b hb => hex b (List.mem_cons_of_mem _ hb))
      · have hx := (hex a (List.mem_cons_self a rest) hexc).2 hzip
        have hc := check_exists_eq env cfg.token cfg.verbose cfg.root_url
          (env.layout "data" scene a)
          (env.layout (pathJoin cfg.data_root "data") scene a)
          (logEv st (Ev.checkCall scene a)) hx
        simp only [assetLoop, hdry, hc]
        rw [if_neg hexc, if_neg hzip]
        obtain ⟨g1, g2, g3⟩ := ih (logEv st (Ev.checkCall scene a)) missing
          (fun b hb => hex b (List.mem_cons_of_mem _ hb))
        refine ⟨g1, g2, ?_⟩
        rw [g3]
        simp [logEv, List.filter_append, Ev.isNet]

/-- When every non-excluded asset target of every scene is already on
disk, the scene loop leaves the filesystem unchanged and issues no
network request. -/
theorem sceneLoop_no_net (env : Env) (cfg : Cfg) (hdry : cfg.dry_run = false)
    (da : List String) :
    ∀ scenes st missing,
      (∀ s ∈ scenes, ∀ a ∈ da,
        a ∉ cfg.exclude_assets ((findSplitVar cfg.splits
            (fun sp => decide (s ∈ env.splitList sp))).getD "") →
        ((a ∈ cfg.zipped_assets →
            isFile st.fs (env.layout (pathJoin cfg.data_root "data") s a)
              ∨ isDir st.fs (env.layout (pathJoin cfg.data_root "data") s a)) ∧
         (a ∉ cfg.zipped_assets →
            isFile st.fs (env.layout (pathJoin cfg.data_root "data") s a)))) →
      (sceneLoop env cfg da scenes st missing).2.fs = st.fs ∧
      (sceneLoop env cfg da scenes st missing).2.trace.filter Ev.isNet
          = st.trace.filter Ev.isNet := by
  intro scenes
  induction scenes with
  | nil => intro st missing _; exact ⟨rfl, rfl⟩
  | cons s rest ih =>
    intro st missing hex
    rcases hsp : findSplitVar cfg.splits (fun sp => decide (s ∈ env.splitList sp))
      with _ | split
    · have hps : processScene env cfg da s st missing
          = (Except.error (Err.assertionError s), st) := by
        unfold processScene
        rw [hsp]
      simp only [sceneLoop, hps]
      constructor <;> first | rfl | trivial
    · have hexa := fun a ha => hex s (List.mem_cons_self s rest) a ha
      rw [hsp] at hexa
      simp only [Option.getD_some] at hexa
      obtain ⟨h1, h2, h3⟩ := assetLoop_all_exists env cfg hdry s split da st missing hexa
      have hps : processScene env cfg da s st missing
          = (Except.ok (missing, false), (assetLoop env cfg s split da st missing).2) := by
        unfold processScene
        rw [hsp, ← h1]
      simp only [sceneLoop, hps]
      have hex2 := fun s2 hs2 => hex s2 (List.mem_cons_of_mem _ hs2)
      rw [← h2] at hex2
      obtain ⟨g1, g2⟩ := ih _ missing hex2
      constructor
      · rw [g1, h2]
      · rw [g2, h3]

/-- C6 (skip-on-existence and idempotent re-runs).  First conjunct: a
zipped asset whose final extracted target already exists — as a file or
a directory — is skipped with no state change at all: the archive is
neither fetched nor re-checked, even if stale.  Second conjunct: outside
dry-run, if every meta file is present, every non-excluded asset target
of every selected scene is present (file or directory for archived
assets, file for plain ones), and every GS point cloud is present
whenever the GS branch is configured, then the whole run performs zero
network calls. -/
theorem c6_idempotent :
    (∀ env cfg scene split a rest st missing,
        a ∉ cfg.exclude_assets split →
        a ∈ cfg.zipped_assets →
        (isFile st.fs (env.layout (pathJoin cfg.data_root "data") scene a)
          ∨ isDir st.fs (env.layout (pathJoin cfg.data_root "data") scene a)) →
        assetLoop env cfg scene split (a :: rest) st missing
          = assetLoop env cfg scene split rest st missing) ∧
    (∀ env cfg fs0,
        cfg.dry_run = false →
        (∀ p ∈ cfg.meta_files, isFile fs0 (pathJoin cfg.data_root p)) →
        (truthyS cfg.scannetpp_gs_dir = true → ∀ s ∈ (scenesOf env cfg).getD [],
            isFile fs0 (pathJoin (cfg.scannetpp_gs_dir.getD "")
              (s ++ "/point_cloud_30000.ply"))) →
        (∀ s ∈ (scenesOf env cfg).getD [], ∀ a ∈ assetsOf cfg,
            a ∉ cfg.exclude_assets ((findSplitVar cfg.splits
                (fun sp => decide (s ∈ env.splitList sp))).getD "") →
            ((a ∈ cfg.zipped_assets →
                isFile fs0 (env.layout (pathJoin cfg.data_root "data") s a)
                  ∨ isDir fs0 (env.layout (pathJoin cfg.data_root "data") s a)) ∧
             (a ∉ cfg.zipped_assets →
                isFile fs0 (env.layout (pathJoin cfg.data_root "data") s a)))) →
        (run env cfg fs0).2.trace.filter Ev.isNet = []) := by
  constructor
  · intro env cfg scene split a rest st missing hexc hzip hx
    simp only [assetLoop]
    rw [if_neg hexc, if_pos hzip, if_pos hx]
  · intro env cfg fs0 hdry hmeta hgs hassets
    simp only [run]
    have hmetaEq := metaLoop_all_exists env cfg hdry cfg.meta_files
      (mkdirP ⟨fs0, 0, []⟩ cfg.data_root) []
      (fun p hp => mkdirP_fs_mono _ _ _ _ (hmeta p hp))
    rw [hmetaEq]
    dsimp only
    have hst1 : (mkdirP (⟨fs0, 0, []⟩ : St) cfg.data_root).trace.filter Ev.isNet = [] := by
      rw [mkdirP_filter_net]
      rfl
    split
    · exact hst1
    · rcases heqS : scenesOf env cfg with _ | scene_ids
      · dsimp only
        exact hst1
      · dsimp only
        split
        · rename_i htr
          have hgsEq := gsLoop_all_exists env cfg hdry (cfg.scannetpp_gs_dir.getD "")
            scene_ids (mkdirP ⟨fs0, 0, []⟩ cfg.data_root)
            (fun s hs => mkdirP_fs_mono _ _ _ _
              (hgs htr s (by rw [heqS]; exact hs)))
          rw [hgsEq]
          dsimp only
          exact hst1
        · have hsc := sceneLoop_no_net env cfg hdry (assetsOf cfg) scene_ids
            (mkdirP ⟨fs0, 0, []⟩ cfg.data_root) []
            (fun s hs a ha hna =>
              have hh := hassets s (by rw [heqS]; exact hs) a ha hna
              ⟨fun hz => (hh.1 hz).imp (mkdirP_fs_mono _ _ _ _) (mkdirP_fs_mono _ _ _ _),
               fun hnz => mkdirP_fs_mono _ _ _ _ (hh.2 hnz)⟩)
          rw [hsc.2, mkdirP_filter_net]
          rfl

/-- Witness for `c6_idempotent`: a zipped asset with an existing
extracted directory is skipped, and a re-run over `fsAll` — the state a
fully successful run leaves behind — issues zero network calls. -/
theorem c6_idempotent_witness :
    (assetLoop envW { cfgW with zipped_assets := ["x"] } "A" "tr" ["x"]
        ⟨[("root/data/A/x", FTag.dir)], 0, []⟩ []
      = assetLoop envW { cfgW with zipped_assets := ["x"] } "A" "tr" []
        ⟨[("root/data/A/x", FTag.dir)], 0, []⟩ []) ∧
    (run envW { cfgW with dry_run := false } fsAll).2.trace.filter Ev.isNet = [] :=
  ⟨c6_idempotent.1 envW { cfgW with zipped_assets := ["x"] } "A" "tr" "x" []
      ⟨[("root/data/A/x", FTag.dir)], 0, []⟩ [] (by decide) (by decide) (by decide),
   c6_idempotent.2 envW { cfgW with dry_run := false } fsAll rfl (by decide)
     (fun h => absurd h (by decide)) (by decide)⟩

end Scannetpp